import Mathlib

/-!
Verification development for the pushpop repository: a WebSocket pub/sub relay.
The Go hub (hub.go) is embedded as a sequential state machine: the hub's Run
loop is the sole processor of register/unregister/broadcast events, so hub
state transitions are modelled as pure functions on an explicit state.  Go
maps and sync.Map values become association lists; channel sends that the hub
enqueues to itself (RemoveClient's unregister events) are processed to
quiescence, which is the hub loop's observable net effect.  The TypeScript
client (ts-client/src/index.ts) is embedded the same way further below.
-/

set_option autoImplicit false

namespace PushPop

/-- Association-list lookup, mirroring a Go map read `m[k]` / `m.Load(k)`. -/
def lookupA {κ V : Type} [DecidableEq κ] : List (κ × V) → κ → Option V
  | [], _ => none
  | (k', v) :: rest, k => if k' = k then some v else lookupA rest k

/-- Association-list write, mirroring a Go map write `m[k] = v` / `m.Store(k, v)`:
replaces the entry in place if the key is present, otherwise appends. -/
def storeA {κ V : Type} [DecidableEq κ] : List (κ × V) → κ → V → List (κ × V)
  | [], k, v => [(k, v)]
  | (k', v') :: rest, k, v =>
      if k' = k then (k, v) :: rest else (k', v') :: storeA rest k v

/-- Association-list delete, mirroring `delete(m, k)` / `m.Delete(k)`. -/
def eraseA {κ V : Type} [DecidableEq κ] (l : List (κ × V)) (k : κ) : List (κ × V) :=
  l.filter (fun p => p.1 ≠ k)

/-- Set insert for a set represented as a duplicate-free list
(a Go `map[T]bool` used as a set, with insertion order fixed). -/
def insertL {α : Type} [DecidableEq α] (l : List α) (a : α) : List α :=
  if a ∈ l then l else l ++ [a]

/-- Set removal for a set represented as a duplicate-free list. -/
def eraseL {α : Type} [DecidableEq α] (l : List α) (a : α) : List α :=
  l.filter (fun b => b ≠ a)

/-- A message relayed through the hub (hub.go `Message`); the payload is
opaque to the hub, so it is embedded as a string. -/
structure Message where
  channel : String
  event : String
  payload : String
deriving DecidableEq, Repr

/-- Capacity of a client's outbound queue: `make(chan Message, 256)` in ServeWs. -/
def sendCap : Nat := 256

/-- The per-connection state the hub touches: the client's own set of
subscribed channel names (`Client.channels`), the contents of its buffered
outbound queue (`Client.send`), and how many times `close(client.send)` has
run (Go panics if this ever exceeds one). -/
structure ClientConn where
  channels : List String
  send : List Message
  closed : Nat
deriving DecidableEq, Repr

def defaultConn : ClientConn := ⟨[], [], 0⟩

/-- Hub state (hub.go `Hub`): the set of live clients, the per-client
connection state, and the channel registry mapping channel name to member set. -/
structure HubState where
  clients : List Nat
  conns : List (Nat × ClientConn)
  channels : List (String × List Nat)
deriving DecidableEq, Repr

def hubInit : HubState := ⟨[], [], []⟩

def getConn (h : HubState) (c : Nat) : ClientConn :=
  (lookupA h.conns c).getD defaultConn

def setConn (h : HubState) (c : Nat) (cc : ClientConn) : HubState :=
  { h with conns := storeA h.conns c cc }

/-- The member set of a channel, empty when the registry has no entry. -/
def membersOf (h : HubState) (ch : String) : List Nat :=
  (lookupA h.channels ch).getD []

/-- hub.go `addSubscription`: `LoadOrStore` the channel's member set, store the
client into it, and store the channel into the client's own channel set. -/
def addSubscription (h : HubState) (c : Nat) (ch : String) : HubState :=
  let members := (lookupA h.channels ch).getD []
  let members' := insertL members c
  let conn := getConn h c
  let h' := { h with channels := storeA h.channels ch members' }
  setConn h' c { conn with channels := insertL conn.channels ch }

/-- hub.go `removeSubscription`: if the channel has a registry entry, delete the
channel from the client's set and the client from the member set; the
`Range` that stops after its first entry counts 0 exactly when the member
set is empty, in which case the registry entry is deleted. -/
def removeSubscription (h : HubState) (c : Nat) (ch : String) : HubState :=
  match lookupA h.channels ch with
  | none => h
  | some members =>
      let conn := getConn h c
      let h' := setConn h c { conn with channels := eraseL conn.channels ch }
      let members' := eraseL members c
      if members'.isEmpty then
        { h' with channels := eraseA h'.channels ch }
      else
        { h' with channels := storeA h'.channels ch members' }

/-- hub.go `RemoveClient`, with the unregister events it enqueues for every
channel in the client's set processed to quiescence by the Run loop: one
`removeSubscription` per subscribed channel, deletion from the hub's client
set, and one `close(client.send)` (counted; the code has no guard against
closing again). -/
def removeClient (h : HubState) (c : Nat) : HubState :=
  let chans := (getConn h c).channels
  let h' := chans.foldl (fun h ch => removeSubscription h c ch) h
  let h'' := { h' with clients := eraseL h'.clients c }
  let conn := getConn h'' c
  setConn h'' c { conn with closed := conn.closed + 1 }

/-- One member's case of the broadcast loop body: the non-blocking
`select { case client.send <- message: default: h.RemoveClient(client) }` —
enqueue when the buffered queue has room, otherwise force-remove the client. -/
def deliverTo (m : Message) (h : HubState) (c : Nat) : HubState :=
  let conn := getConn h c
  if conn.send.length < sendCap then
    setConn h c { conn with send := conn.send ++ [m] }
  else
    removeClient h c

/-- hub.go `broadcastMessage`: look up the channel's member set (a silent
no-op when absent) and run the delivery attempt over its members. -/
def broadcastMessage (h : HubState) (m : Message) : HubState :=
  match lookupA h.channels m.channel with
  | none => h
  | some members => members.foldl (deliverTo m) h

/-- hub.go `Trigger`: calls `broadcastMessage` directly (it does not send on
the hub's broadcast channel). -/
def Trigger (h : HubState) (m : Message) : HubState :=
  broadcastMessage h m

/-- The events the hub's Run loop processes, plus the RemoveClient entry
point invoked by connection teardown. -/
inductive HubEvent where
  | register (c : Nat) (ch : String)
  | unregister (c : Nat) (ch : String)
  | broadcast (m : Message)
  | removeClient (c : Nat)
deriving DecidableEq, Repr

def hubStep (h : HubState) : HubEvent → HubState
  | .register c ch => addSubscription h c ch
  | .unregister c ch => removeSubscription h c ch
  | .broadcast m => broadcastMessage h m
  | .removeClient c => removeClient h c

def hubRun (es : List HubEvent) : HubState :=
  es.foldl hubStep hubInit

/-- Outcomes of the `/trigger` HTTP handler. -/
inductive TriggerStatus where
  | ok
  | invalidMethod
  | invalidBody
  | timeout
deriving DecidableEq, Repr

/-- A decoded view of one `/trigger` request: whether the method was POST,
the JSON-decoded body (`none` when undecodable), and whether the 5-second
context had already expired. -/
structure TriggerRequest where
  isPost : Bool
  body : Option Message
  ctxDone : Bool
deriving DecidableEq, Repr

/-- Server state visible to the trigger path: the hub's registry state and
the pending contents of the hub's buffered broadcast channel (`h.broadcast`). -/
structure ServerState where
  hub : HubState
  broadcastQueue : List Message
deriving DecidableEq, Repr

/-- hub.go `HandleTrigger`: reject non-POST, reject an undecodable body,
report a timeout if the context expired, otherwise run `hub.Trigger` —
which invokes `broadcastMessage` synchronously — and report 200. -/
def handleTrigger (s : ServerState) (r : TriggerRequest) : TriggerStatus × ServerState :=
  if ¬ r.isPost then (.invalidMethod, s)
  else
    match r.body with
    | none => (.invalidBody, s)
    | some m =>
        if r.ctxDone then (.timeout, s)
        else (.ok, { s with hub := Trigger s.hub m })

/-- Timeout constants from client.go, in nanoseconds (`time.Second` units). -/
def second : Nat := 1000000000

def writeWait : Nat := 10 * second

def pongWait : Nat := 60 * second

def pingPeriod : Nat := pongWait * 9 / 10

def maxMessageSize : Nat := 512

/-- One outbound JSON frame produced by the TypeScript client
(`{action, channel}`; the payload-free actions are the only producers). -/
structure SFrame where
  action : String
  channel : String
deriving DecidableEq, Repr

/-- ts-client `Channel`: a local fan-out table from event name to the set of
bound callbacks; callbacks are identified by numeric handles. -/
structure ChannelObj where
  name : String
  events : List (String × List Nat)
deriving DecidableEq, Repr

/-- ts-client `SocketClient` state: the locally tracked channels in insertion
order (a JS string-keyed record preserves insertion order), the internal
message queue filled by `send` while the socket is not open, whether the
socket's readyState is OPEN, the frames transmitted so far (oldest first),
and the reconnect-attempt counter. -/
structure SocketClient where
  channels : List (String × ChannelObj)
  messageQueue : List SFrame
  sockOpen : Bool
  sent : List SFrame
  reconnectAttempts : Nat
deriving DecidableEq, Repr

/-- ts-client `SocketClient.send`: transmit when the socket is open,
otherwise push onto the message queue. -/
def SocketClient.send (s : SocketClient) (d : SFrame) : SocketClient :=
  if s.sockOpen then { s with sent := s.sent ++ [d] }
  else { s with messageQueue := s.messageQueue ++ [d] }

/-- The `while (queue.length > 0) send(queue.shift())` loop of the onopen
handler, applied to the queue snapshot: the socket is open for the whole
loop, so each send transmits instead of re-queueing. -/
def flushQueue : List SFrame → SocketClient → SocketClient
  | [], s => s
  | m :: rest, s => flushQueue rest (s.send m)

/-- ts-client `socket.onopen`: the handler runs once readyState is OPEN; it
resets the attempt counter, re-sends a subscribe frame for every locally
tracked channel in order, and then drains the message queue in FIFO order. -/
def onOpen (s : SocketClient) : SocketClient :=
  let s1 := { s with sockOpen := true, reconnectAttempts := 0 }
  let s2 := s1.channels.foldl (fun st p => st.send ⟨"subscribe", p.1⟩) s1
  flushQueue s2.messageQueue { s2 with messageQueue := [] }

/-- ts-client `SocketClient.subscribe`: when the channel is already tracked,
return it untouched; otherwise create and track a fresh Channel and send a
subscribe frame only if the socket is currently open. -/
def SocketClient.subscribe (s : SocketClient) (name : String) :
    SocketClient × ChannelObj :=
  match lookupA s.channels name with
  | some ch => (s, ch)
  | none =>
      let ch : ChannelObj := ⟨name, []⟩
      let s1 := { s with channels := s.channels ++ [(name, ch)] }
      let s2 := if s1.sockOpen then s1.send ⟨"subscribe", name⟩ else s1
      (s2, ch)

/-- ts-client `SocketClient.unsubscribe`: only when the channel is tracked,
send an unsubscribe frame if the socket is open, then drop the local channel. -/
def SocketClient.unsubscribe (s : SocketClient) (name : String) : SocketClient :=
  if (lookupA s.channels name).isSome then
    let s1 := if s.sockOpen then s.send ⟨"unsubscribe", name⟩ else s
    { s1 with channels := eraseA s1.channels name }
  else s

/-- ts-client `Channel.bind`: add the callback to the event's set, creating
the set on first use. -/
def ChannelObj.bind (co : ChannelObj) (ev : String) (cb : Nat) : ChannelObj :=
  let cbs := (lookupA co.events ev).getD []
  { co with events := storeA co.events ev (insertL cbs cb) }

/-- ts-client `SocketClient.bind`: forward to the tracked channel's bind;
an untracked channel is only logged. -/
def SocketClient.bind (s : SocketClient) (name ev : String) (cb : Nat) :
    SocketClient :=
  match lookupA s.channels name with
  | none => s
  | some co => { s with channels := storeA s.channels name (co.bind ev cb) }

/-- The hub's registry/bookkeeping invariant: association-list keys are
duplicate-free, member sets and per-client channel sets are duplicate-free,
registry entries are non-empty, and the dual bookkeeping is in sync — a
client is in a channel's member set exactly when the channel is in the
client's own set. -/
structure WF (h : HubState) : Prop where
  chanKeys : (h.channels.map Prod.fst).Nodup
  connKeys : (h.conns.map Prod.fst).Nodup
  memNodup : ∀ ch ms, lookupA h.channels ch = some ms → ms.Nodup
  memNonempty : ∀ ch ms, lookupA h.channels ch = some ms → ms ≠ []
  subNodup : ∀ c, ((getConn h c).channels).Nodup
  sync : ∀ c ch, c ∈ membersOf h ch ↔ ch ∈ (getConn h c).channels

/-- Observational equality of hub states: same registry, same client set,
and the same state for every connection (a connection absent from the
association list is its default state). -/
def HubState.Equiv (h₁ h₂ : HubState) : Prop :=
  h₁.channels = h₂.channels ∧ h₁.clients = h₂.clients ∧
    ∀ c, getConn h₁ c = getConn h₂ c

/-- A subscribe/unsubscribe request from one connection's read loop. -/
inductive SubAct where
  | sub (ch : String)
  | unsub (ch : String)
deriving DecidableEq, Repr

def subActEvent (c : Nat) : SubAct → HubEvent
  | .sub ch => .register c ch
  | .unsub ch => .unregister c ch

/-- The net effect of a subscribe/unsubscribe sequence on a set of channel
names: subscribe inserts (idempotently), unsubscribe removes (a no-op when
absent). -/
def netEffect (init : List String) (acts : List SubAct) : List String :=
  acts.foldl
    (fun s a => match a with | .sub ch => insertL s ch | .unsub ch => eraseL s ch)
    init

/-- A hub with connections 0 and 1 both subscribed to channel "a". -/
def hubAB : HubState :=
  hubRun [.register 0 "a", .register 1 "a"]

/-- A broadcast message for channel "a". -/
def msgA : Message := ⟨"a", "greet", "hi"⟩

/-- A filler message for channel "b". -/
def msgB : Message := ⟨"b", "fill", "x"⟩

/-- A hub where connection 0 (subscribed to "a" and "b") has a full outbound
queue — 256 undrained broadcasts to "b" — while connection 1 (subscribed to
"a") has an empty queue. -/
def hubSaturated : HubState :=
  hubRun ([.register 0 "a", .register 0 "b", .register 1 "a"]
    ++ List.replicate sendCap (.broadcast msgB))

/-- A client that tracks channel "a" and, hypothetically, has one buffered
frame in its message queue, with the socket not yet open. -/
def clientQueued : SocketClient :=
  { channels := [("a", ⟨"a", []⟩)]
    messageQueue := [⟨"message", "b"⟩]
    sockOpen := false
    sent := []
    reconnectAttempts := 1 }

/-- A disconnected client currently tracking channel "a". -/
def clientClosedA : SocketClient :=
  { channels := [("a", ⟨"a", []⟩)]
    messageQueue := []
    sockOpen := false
    sent := []
    reconnectAttempts := 0 }

/-- A connected client tracking channel "a" with callback 7 bound to "ev". -/
def clientBound : SocketClient :=
  { channels := [("a", ⟨"a", [("ev", [7])]⟩)]
    messageQueue := []
    sockOpen := true
    sent := []
    reconnectAttempts := 0 }

section Toolkit

variable {κ V : Type} [DecidableEq κ]

theorem lookupA_storeA_self (l : List (κ × V)) (k : κ) (v : V) :
    lookupA (storeA l k v) k = some v := by
  induction l with
  | nil => simp [storeA, lookupA]
  | cons p rest ih =>
      obtain ⟨k', v'⟩ := p
      by_cases h : k' = k
      · simp [storeA, lookupA, h]
      · simp [storeA, lookupA, h, ih]

theorem lookupA_storeA_ne (l : List (κ × V)) {k k' : κ} (v : V) (h : k' ≠ k) :
    lookupA (storeA l k v) k' = lookupA l k' := by
  induction l with
  | nil => simp [storeA, lookupA, Ne.symm h]
  | cons p rest ih =>
      obtain ⟨k₀, v₀⟩ := p
      by_cases hk : k₀ = k
      · subst hk
        simp [storeA, lookupA, Ne.symm h]
      · by_cases hk' : k₀ = k'
        · simp [storeA, lookupA, hk, hk', h]
        · simp [storeA, lookupA, hk, hk', ih]

theorem storeA_eq_of_lookupA {l : List (κ × V)} {k : κ} {v : V}
    (h : lookupA l k = some v) : storeA l k v = l := by
  induction l with
  | nil => simp [lookupA] at h
  | cons p rest ih =>
      obtain ⟨k', v'⟩ := p
      by_cases hk : k' = k
      · subst hk
        simp only [lookupA, if_true] at h
        simp only [Option.some.injEq] at h
        simp [storeA, h]
      · simp only [lookupA, if_neg hk] at h
        simp [storeA, hk, ih h]

theorem lookupA_eraseA_self (l : List (κ × V)) (k : κ) :
    lookupA (eraseA l k) k = none := by
  induction l with
  | nil => rfl
  | cons p rest ih =>
      obtain ⟨k', v'⟩ := p
      by_cases hk : k' = k
      · simpa [eraseA, List.filter_cons, hk] using ih
      · simpa [eraseA, List.filter_cons, lookupA, hk] using ih

theorem lookupA_eraseA_ne (l : List (κ × V)) {k k' : κ} (h : k' ≠ k) :
    lookupA (eraseA l k) k' = lookupA l k' := by
  induction l with
  | nil => rfl
  | cons p rest ih =>
      obtain ⟨k₀, v₀⟩ := p
      by_cases hk : k₀ = k
      · subst hk
        simpa [eraseA, List.filter_cons, lookupA, Ne.symm h] using ih
      · by_cases hk' : k₀ = k'
        · simp [eraseA, List.filter_cons, lookupA, hk, hk', h]
        · simpa [eraseA, List.filter_cons, lookupA, hk, hk'] using ih

theorem keys_storeA (l : List (κ × V)) (k : κ) (v : V) :
    (storeA l k v).map Prod.fst =
      if k ∈ l.map Prod.fst then l.map Prod.fst else l.map Prod.fst ++ [k] := by
  induction l with
  | nil => simp [storeA]
  | cons p rest ih =>
      obtain ⟨k₀, v₀⟩ := p
      by_cases hk : k₀ = k
      · subst hk
        simp [storeA]
      · by_cases hmem : k ∈ rest.map Prod.fst
        · simp [storeA, hk, ih, hmem, Ne.symm hk]
        · simp [storeA, hk, ih, hmem, Ne.symm hk]

theorem keys_storeA_nodup {l : List (κ × V)} (k : κ) (v : V)
    (h : (l.map Prod.fst).Nodup) : ((storeA l k v).map Prod.fst).Nodup := by
  rw [keys_storeA]
  by_cases hmem : k ∈ l.map Prod.fst
  · simpa [hmem] using h
  · rw [if_neg hmem]
    refine h.append (List.nodup_singleton k) ?_
    intro b hb hbk
    simp only [List.mem_singleton] at hbk
    subst hbk
    exact hmem hb

theorem keys_eraseA_nodup {l : List (κ × V)} (k : κ)
    (h : (l.map Prod.fst).Nodup) : ((eraseA l k).map Prod.fst).Nodup := by
  have hsub : (eraseA l k).Sublist l := List.filter_sublist l
  exact (hsub.map Prod.fst).nodup h

theorem lookupA_eq_none_of_not_mem_keys {l : List (κ × V)} {k : κ}
    (h : k ∉ l.map Prod.fst) : lookupA l k = none := by
  induction l with
  | nil => rfl
  | cons p rest ih =>
      obtain ⟨k', v'⟩ := p
      simp only [List.map_cons, List.mem_cons] at h
      push_neg at h
      simp [lookupA, Ne.symm h.1, ih h.2]

theorem mem_keys_of_lookupA {l : List (κ × V)} {k : κ} {v : V}
    (h : lookupA l k = some v) : k ∈ l.map Prod.fst := by
  by_contra hmem
  rw [lookupA_eq_none_of_not_mem_keys hmem] at h
  exact Option.noConfusion h

end Toolkit

section SetOps

variable {α : Type} [DecidableEq α]

theorem mem_insertL {l : List α} {a b : α} : b ∈ insertL l a ↔ b ∈ l ∨ b = a := by
  by_cases h : a ∈ l
  · rw [insertL, if_pos h]
    constructor
    · exact Or.inl
    · rintro (hb | rfl)
      · exact hb
      · exact h
  · simp [insertL, h]

theorem insertL_ne_nil (l : List α) (a : α) : insertL l a ≠ [] := by
  intro hnil
  have : a ∈ insertL l a := mem_insertL.mpr (Or.inr rfl)
  rw [hnil] at this
  simp at this

theorem nodup_insertL {l : List α} (a : α) (h : l.Nodup) : (insertL l a).Nodup := by
  by_cases hm : a ∈ l
  · simpa [insertL, hm] using h
  · rw [insertL, if_neg hm]
    refine h.append (List.nodup_singleton a) ?_
    intro b hb hba
    simp only [List.mem_singleton] at hba
    subst hba
    exact hm hb

theorem insertL_eq_of_mem {l : List α} {a : α} (h : a ∈ l) : insertL l a = l := by
  simp [insertL, h]

theorem mem_eraseL {l : List α} {a b : α} : b ∈ eraseL l a ↔ b ∈ l ∧ b ≠ a := by
  simp [eraseL]

theorem not_mem_eraseL (l : List α) (a : α) : a ∉ eraseL l a := by
  simp [mem_eraseL]

theorem nodup_eraseL {l : List α} (a : α) (h : l.Nodup) : (eraseL l a).Nodup :=
  (List.filter_sublist l).nodup h

theorem eraseL_eq_of_not_mem {l : List α} {a : α} (h : a ∉ l) : eraseL l a = l := by
  rw [eraseL, List.filter_eq_self]
  intro b hb
  simpa using fun hba : b = a => h (hba ▸ hb)

theorem eraseL_subset (l : List α) (a : α) : eraseL l a ⊆ l := by
  intro b hb
  exact (List.mem_filter.mp hb).1

theorem eraseL_cons_of_nodup {l : List α} {a : α} (h : (a :: l).Nodup) :
    eraseL (a :: l) a = l := by
  simp only [List.nodup_cons] at h
  have hstep : eraseL (a :: l) a = eraseL l a := by
    simp [eraseL, List.filter_cons]
  rw [hstep, eraseL_eq_of_not_mem h.1]

theorem eraseL_isEmpty_iff {l : List α} {a : α} :
    (eraseL l a).isEmpty = true ↔ ∀ b ∈ l, b = a := by
  rw [List.isEmpty_iff]
  constructor
  · intro h b hb
    by_contra hne
    have hmem : b ∈ eraseL l a := mem_eraseL.mpr ⟨hb, hne⟩
    rw [h] at hmem
    simp at hmem
  · intro h
    rw [List.eq_nil_iff_forall_not_mem]
    intro b hb
    rcases mem_eraseL.mp hb with ⟨hbl, hne⟩
    exact hne (h b hbl)

end SetOps

section HubBasics

theorem getConn_setConn_self (h : HubState) (c : Nat) (cc : ClientConn) :
    getConn (setConn h c cc) c = cc := by
  simp [getConn, setConn, lookupA_storeA_self]

theorem getConn_setConn_ne (h : HubState) {c c' : Nat} (cc : ClientConn)
    (hne : c' ≠ c) : getConn (setConn h c cc) c' = getConn h c' := by
  simp [getConn, setConn, lookupA_storeA_ne _ _ hne]

theorem conn_update_eta (cc : ClientConn) :
    { cc with channels := cc.channels } = cc := rfl

theorem wf_membersOf_nodup {h : HubState} (hwf : WF h) (ch : String) :
    (membersOf h ch).Nodup := by
  unfold membersOf
  cases hlk : lookupA h.channels ch with
  | none => simp
  | some ms => simpa using hwf.memNodup ch ms hlk

theorem wf_mem_iff {h : HubState} (hwf : WF h) {c : Nat} {ch : String} :
    c ∈ membersOf h ch ↔ ch ∈ (getConn h c).channels :=
  hwf.sync c ch

/-- Registration: the registering client's own channel set gains the channel. -/
theorem addSub_getConn_self (h : HubState) (c : Nat) (ch : String) :
    getConn (addSubscription h c ch) c =
      { getConn h c with channels := insertL (getConn h c).channels ch } := by
  unfold addSubscription
  rw [getConn_setConn_self]

/-- Registration leaves every other connection's state unchanged. -/
theorem addSub_getConn_ne (h : HubState) {c c' : Nat} (ch : String)
    (hne : c' ≠ c) : getConn (addSubscription h c ch) c' = getConn h c' := by
  unfold addSubscription
  rw [getConn_setConn_ne _ _ hne]
  rfl

theorem addSub_lookup_self (h : HubState) (c : Nat) (ch : String) :
    lookupA (addSubscription h c ch).channels ch =
      some (insertL (membersOf h ch) c) := by
  unfold addSubscription membersOf
  simp [setConn, lookupA_storeA_self]

theorem addSub_lookup_ne (h : HubState) (c : Nat) {ch ch' : String}
    (hne : ch' ≠ ch) :
    lookupA (addSubscription h c ch).channels ch' = lookupA h.channels ch' := by
  unfold addSubscription
  simp [setConn, lookupA_storeA_ne _ _ hne]

theorem addSub_membersOf_self (h : HubState) (c : Nat) (ch : String) :
    membersOf (addSubscription h c ch) ch = insertL (membersOf h ch) c := by
  unfold membersOf
  rw [addSub_lookup_self]
  rfl

theorem addSub_membersOf_ne (h : HubState) (c : Nat) {ch ch' : String}
    (hne : ch' ≠ ch) :
    membersOf (addSubscription h c ch) ch' = membersOf h ch' := by
  unfold membersOf
  rw [addSub_lookup_ne _ _ hne]

theorem addSub_clients (h : HubState) (c : Nat) (ch : String) :
    (addSubscription h c ch).clients = h.clients := rfl

/-- Unregistration: characterization of the channel's registry entry. -/
theorem removeSub_lookup_self {h : HubState} {c : Nat} {ch : String}
    {members : List Nat} (hlk : lookupA h.channels ch = some members) :
    lookupA (removeSubscription h c ch).channels ch =
      if (eraseL members c).isEmpty then none else some (eraseL members c) := by
  unfold removeSubscription
  rw [hlk]
  by_cases he : (eraseL members c).isEmpty
  · simp only [he, if_true]
    simp [setConn, lookupA_eraseA_self]
  · simp only [he, if_false]
    simp [setConn, lookupA_storeA_self]

theorem removeSub_lookup_ne (h : HubState) (c : Nat) {ch ch' : String}
    (hne : ch' ≠ ch) :
    lookupA (removeSubscription h c ch).channels ch' = lookupA h.channels ch' := by
  unfold removeSubscription
  cases hlk : lookupA h.channels ch with
  | none => rfl
  | some members =>
      by_cases he : (eraseL members c).isEmpty
      · simp only [he, if_true]
        simp [setConn, lookupA_eraseA_ne _ hne]
      · simp only [he, if_false]
        simp [setConn, lookupA_storeA_ne _ _ hne]

theorem removeSub_membersOf_self (h : HubState) (c : Nat) (ch : String) :
    membersOf (removeSubscription h c ch) ch = eraseL (membersOf h ch) c := by
  cases hlk : lookupA h.channels ch with
  | none =>
      unfold removeSubscription
      rw [hlk]
      unfold membersOf
      rw [hlk]
      simp [eraseL]
  | some members =>
      unfold membersOf
      rw [removeSub_lookup_self hlk, hlk]
      by_cases he : (eraseL members c).isEmpty
      · rw [List.isEmpty_iff] at he
        simp [he]
      · simp [he]

theorem removeSub_membersOf_ne (h : HubState) (c : Nat) {ch ch' : String}
    (hne : ch' ≠ ch) :
    membersOf (removeSubscription h c ch) ch' = membersOf h ch' := by
  unfold membersOf
  rw [removeSub_lookup_ne _ _ hne]

theorem removeSub_getConn_self_of_some {h : HubState} {c : Nat} {ch : String}
    {members : List Nat} (hlk : lookupA h.channels ch = some members) :
    getConn (removeSubscription h c ch) c =
      { getConn h c with channels := eraseL (getConn h c).channels ch } := by
  unfold removeSubscription
  rw [hlk]
  by_cases he : (eraseL members c).isEmpty
  · simp only [he, if_true]
    show getConn { setConn h c _ with channels := _ } c = _
    simp [getConn, setConn, lookupA_storeA_self]
  · simp only [he, if_false]
    show getConn { setConn h c _ with channels := _ } c = _
    simp [getConn, setConn, lookupA_storeA_self]

theorem removeSub_getConn_self {h : HubState} (hwf : WF h) (c : Nat) (ch : String) :
    getConn (removeSubscription h c ch) c =
      { getConn h c with channels := eraseL (getConn h c).channels ch } := by
  cases hlk : lookupA h.channels ch with
  | none =>
      have hnm : ch ∉ (getConn h c).channels := by
        intro hm
        have := (hwf.sync c ch).mpr hm
        unfold membersOf at this
        rw [hlk] at this
        simp at this
      unfold removeSubscription
      rw [hlk, eraseL_eq_of_not_mem hnm]
  | some members => exact removeSub_getConn_self_of_some hlk

theorem removeSub_getConn_ne (h : HubState) {c c' : Nat} (ch : String)
    (hne : c' ≠ c) :
    getConn (removeSubscription h c ch) c' = getConn h c' := by
  unfold removeSubscription
  cases hlk : lookupA h.channels ch with
  | none => rfl
  | some members =>
      by_cases he : (eraseL members c).isEmpty
      · simp only [he, if_true]
        show getConn { setConn h c _ with channels := _ } c' = _
        simp [getConn, setConn, lookupA_storeA_ne _ _ hne]
      · simp only [he, if_false]
        show getConn { setConn h c _ with channels := _ } c' = _
        simp [getConn, setConn, lookupA_storeA_ne _ _ hne]

theorem removeSub_clients (h : HubState) (c : Nat) (ch : String) :
    (removeSubscription h c ch).clients = h.clients := by
  unfold removeSubscription
  cases lookupA h.channels ch with
  | none => rfl
  | some members =>
      by_cases he : (eraseL members c).isEmpty
      · simp [he, setConn]
      · simp [he, setConn]

end HubBasics

section HubWF

theorem wf_addSubscription {h : HubState} (hwf : WF h) (c : Nat) (ch : String) :
    WF (addSubscription h c ch) := by
  have hch : (addSubscription h c ch).channels =
      storeA h.channels ch (insertL (membersOf h ch) c) := rfl
  have hcn : (addSubscription h c ch).conns =
      storeA h.conns c
        { getConn h c with channels := insertL (getConn h c).channels ch } := rfl
  constructor
  · rw [hch]
    exact keys_storeA_nodup _ _ hwf.chanKeys
  · rw [hcn]
    exact keys_storeA_nodup _ _ hwf.connKeys
  · intro ch' ms hlk
    by_cases hne : ch' = ch
    · subst hne
      rw [addSub_lookup_self] at hlk
      cases hlk
      exact nodup_insertL _ (wf_membersOf_nodup hwf ch')
    · rw [addSub_lookup_ne _ _ hne] at hlk
      exact hwf.memNodup _ _ hlk
  · intro ch' ms hlk
    by_cases hne : ch' = ch
    · subst hne
      rw [addSub_lookup_self] at hlk
      cases hlk
      exact insertL_ne_nil _ _
    · rw [addSub_lookup_ne _ _ hne] at hlk
      exact hwf.memNonempty _ _ hlk
  · intro c'
    by_cases hc : c' = c
    · subst hc
      rw [addSub_getConn_self]
      exact nodup_insertL _ (hwf.subNodup c')
    · rw [addSub_getConn_ne _ _ hc]
      exact hwf.subNodup c'
  · intro c' ch'
    by_cases hch' : ch' = ch
    · subst hch'
      by_cases hc' : c' = c
      · subst hc'
        rw [addSub_membersOf_self, addSub_getConn_self]
        simp [mem_insertL]
      · rw [addSub_membersOf_self, addSub_getConn_ne _ _ hc', mem_insertL]
        simp only [hc', or_false]
        exact hwf.sync c' ch'
    · by_cases hc' : c' = c
      · subst hc'
        rw [addSub_membersOf_ne _ _ hch', addSub_getConn_self]
        show _ ↔ ch' ∈ insertL (getConn h c').channels ch
        rw [mem_insertL]
        simp only [hch', or_false]
        exact hwf.sync c' ch'
      · rw [addSub_membersOf_ne _ _ hch', addSub_getConn_ne _ _ hc']
        exact hwf.sync c' ch'

theorem wf_removeSubscription {h : HubState} (hwf : WF h) (c : Nat) (ch : String) :
    WF (removeSubscription h c ch) := by
  cases hlk : lookupA h.channels ch with
  | none =>
      have heq : removeSubscription h c ch = h := by
        unfold removeSubscription
        rw [hlk]
      rw [heq]
      exact hwf
  | some members =>
      have hch : (removeSubscription h c ch).channels =
          if (eraseL members c).isEmpty then eraseA h.channels ch
          else storeA h.channels ch (eraseL members c) := by
        unfold removeSubscription
        rw [hlk]
        by_cases he : (eraseL members c).isEmpty
        · simp [he, setConn]
        · simp [he, setConn]
      have hcn : (removeSubscription h c ch).conns =
          storeA h.conns c
            { getConn h c with channels := eraseL (getConn h c).channels ch } := by
        unfold removeSubscription
        rw [hlk]
        by_cases he : (eraseL members c).isEmpty
        · simp [he, setConn]
        · simp [he, setConn]
      constructor
      · rw [hch]
        by_cases he : (eraseL members c).isEmpty
        · rw [if_pos he]
          exact keys_eraseA_nodup _ hwf.chanKeys
        · rw [if_neg he]
          exact keys_storeA_nodup _ _ hwf.chanKeys
      · rw [hcn]
        exact keys_storeA_nodup _ _ hwf.connKeys
      · intro ch' ms hlk'
        by_cases hne : ch' = ch
        · subst hne
          rw [removeSub_lookup_self hlk] at hlk'
          by_cases he : (eraseL members c).isEmpty
          · rw [if_pos he] at hlk'
            exact Option.noConfusion hlk'
          · rw [if_neg he] at hlk'
            cases hlk'
            exact nodup_eraseL _ (hwf.memNodup _ _ hlk)
        · rw [removeSub_lookup_ne _ _ hne] at hlk'
          exact hwf.memNodup _ _ hlk'
      · intro ch' ms hlk'
        by_cases hne : ch' = ch
        · subst hne
          rw [removeSub_lookup_self hlk] at hlk'
          by_cases he : (eraseL members c).isEmpty
          · rw [if_pos he] at hlk'
            exact Option.noConfusion hlk'
          · rw [if_neg he] at hlk'
            cases hlk'
            intro hnil
            exact he (by simp [hnil])
        · rw [removeSub_lookup_ne _ _ hne] at hlk'
          exact hwf.memNonempty _ _ hlk'
      · intro c'
        by_cases hc : c' = c
        · subst hc
          rw [removeSub_getConn_self_of_some hlk]
          exact nodup_eraseL _ (hwf.subNodup c')
        · rw [removeSub_getConn_ne _ _ hc]
          exact hwf.subNodup c'
      · intro c' ch'
        by_cases hch' : ch' = ch
        · subst hch'
          by_cases hc' : c' = c
          · subst hc'
            rw [removeSub_membersOf_self, removeSub_getConn_self_of_some hlk]
            show _ ↔ ch' ∈ eraseL (getConn h c').channels ch'
            simp [mem_eraseL]
          · rw [removeSub_membersOf_self, removeSub_getConn_ne _ _ hc', mem_eraseL]
            simp only [ne_eq, hc', not_false_eq_true, and_true]
            exact hwf.sync c' ch'
        · by_cases hc' : c' = c
          · subst hc'
            rw [removeSub_membersOf_ne _ _ hch', removeSub_getConn_self_of_some hlk]
            show _ ↔ ch' ∈ eraseL (getConn h c').channels ch
            rw [mem_eraseL]
            simp only [ne_eq, hch', not_false_eq_true, and_true]
            exact hwf.sync c' ch'
          · rw [removeSub_membersOf_ne _ _ hch', removeSub_getConn_ne _ _ hc']
            exact hwf.sync c' ch'

end HubWF

section RemoveClient

theorem eraseL_idem {α : Type} [DecidableEq α] (l : List α) (a : α) :
    eraseL (eraseL l a) a = eraseL l a :=
  eraseL_eq_of_not_mem (not_mem_eraseL l a)

theorem membersOf_setConn (h : HubState) (c : Nat) (cc : ClientConn) (ch : String) :
    membersOf (setConn h c cc) ch = membersOf h ch := rfl

/-- Draining one unregister event per channel of a client's set empties the
client's own channel set, erases the client from every member set, and
leaves every other connection and the hub's client list untouched. -/
theorem removeSub_foldl_spec (l : List String) :
    ∀ {h : HubState} {c : Nat}, WF h → (getConn h c).channels = l →
      WF (l.foldl (fun h ch => removeSubscription h c ch) h)
      ∧ getConn (l.foldl (fun h ch => removeSubscription h c ch) h) c =
          { getConn h c with channels := [] }
      ∧ (∀ c', c' ≠ c →
          getConn (l.foldl (fun h ch => removeSubscription h c ch) h) c' =
            getConn h c')
      ∧ (∀ ch, membersOf (l.foldl (fun h ch => removeSubscription h c ch) h) ch =
          eraseL (membersOf h ch) c)
      ∧ (l.foldl (fun h ch => removeSubscription h c ch) h).clients = h.clients := by
  induction l with
  | nil =>
      intro h c hwf hl
      refine ⟨hwf, ?_, fun c' _ => rfl, ?_, rfl⟩
      · show getConn h c = { getConn h c with channels := [] }
        conv_rhs => rw [← hl]
      · intro ch
        have hnm : c ∉ membersOf h ch := by
          rw [wf_mem_iff hwf, hl]
          simp
        rw [eraseL_eq_of_not_mem hnm]
        rfl
  | cons ch₀ l ih =>
      intro h c hwf hl
      have hnodup : (ch₀ :: l).Nodup := hl ▸ hwf.subNodup c
      have hwf₁ : WF (removeSubscription h c ch₀) := wf_removeSubscription hwf c ch₀
      have hconn₁ : getConn (removeSubscription h c ch₀) c =
          { getConn h c with channels := l } := by
        rw [removeSub_getConn_self hwf, hl, eraseL_cons_of_nodup hnodup]
      have hchain : (ch₀ :: l).foldl (fun h ch => removeSubscription h c ch) h =
          l.foldl (fun h ch => removeSubscription h c ch) (removeSubscription h c ch₀) :=
        rfl
      have hrec := ih hwf₁ (by rw [hconn₁])
      rw [hchain]
      refine ⟨hrec.1, ?_, ?_, ?_, ?_⟩
      · rw [hrec.2.1, hconn₁]
      · intro c' hc'
        rw [hrec.2.2.1 c' hc', removeSub_getConn_ne _ _ hc']
      · intro ch
        rw [hrec.2.2.2.1 ch]
        by_cases hch : ch = ch₀
        · subst hch
          rw [removeSub_membersOf_self, eraseL_idem]
        · rw [removeSub_membersOf_ne _ _ hch]
      · rw [hrec.2.2.2.2, removeSub_clients]

/-- hub.go `RemoveClient` net effect: the client's channel set is emptied,
its queue-close count rises by one, its buffered queue is untouched, it is
erased from every member set and from the hub's client list, and no other
connection changes. -/
theorem removeClient_spec {h : HubState} (hwf : WF h) (c : Nat) :
    WF (removeClient h c)
    ∧ getConn (removeClient h c) c =
        { getConn h c with channels := [], closed := (getConn h c).closed + 1 }
    ∧ (∀ c', c' ≠ c → getConn (removeClient h c) c' = getConn h c')
    ∧ (∀ ch, membersOf (removeClient h c) ch = eraseL (membersOf h ch) c)
    ∧ (removeClient h c).clients = eraseL h.clients c := by
  obtain ⟨hwf', hself, hother, hmem, hclients⟩ :=
    removeSub_foldl_spec ((getConn h c).channels) hwf rfl
  set h₁ := ((getConn h c).channels).foldl (fun h ch => removeSubscription h c ch) h
    with hh₁
  have hgself : getConn (removeClient h c) c =
      { getConn h c with channels := [], closed := (getConn h c).closed + 1 } := by
    have : getConn (removeClient h c) c =
        { getConn h₁ c with closed := (getConn h₁ c).closed + 1 } := by
      show getConn (setConn _ c _) c = _
      rw [getConn_setConn_self]
      rfl
    rw [this, hself]
  have hgother : ∀ c', c' ≠ c → getConn (removeClient h c) c' = getConn h c' := by
    intro c' hc'
    have : getConn (removeClient h c) c' = getConn h₁ c' := by
      show getConn (setConn _ c _) c' = _
      rw [getConn_setConn_ne _ _ hc']
      rfl
    rw [this]
    exact hother c' hc'
  have hmems : ∀ ch, membersOf (removeClient h c) ch = eraseL (membersOf h ch) c := by
    intro ch
    have : membersOf (removeClient h c) ch = membersOf h₁ ch := rfl
    rw [this]
    exact hmem ch
  have hchans : (removeClient h c).channels = h₁.channels := rfl
  have hconns : (removeClient h c).conns =
      storeA h₁.conns c { getConn h₁ c with closed := (getConn h₁ c).closed + 1 } := rfl
  refine ⟨?_, hgself, hgother, hmems, ?_⟩
  · constructor
    · rw [hchans]
      exact hwf'.chanKeys
    · rw [hconns]
      exact keys_storeA_nodup _ _ hwf'.connKeys
    · intro ch ms hlk
      rw [hchans] at hlk
      exact hwf'.memNodup ch ms hlk
    · intro ch ms hlk
      rw [hchans] at hlk
      exact hwf'.memNonempty ch ms hlk
    · intro c'
      by_cases hc : c' = c
      · subst hc
        rw [hgself]
        exact List.nodup_nil
      · rw [hgother c' hc]
        exact hwf.subNodup c'
    · intro c' ch
      by_cases hc : c' = c
      · subst hc
        rw [hgself, hmems ch]
        show c' ∈ eraseL (membersOf h ch) c' ↔ ch ∈ ([] : List String)
        simp [mem_eraseL]
      · rw [hgother c' hc, hmems ch, mem_eraseL]
        simp only [ne_eq, hc, not_false_eq_true, and_true]
        exact hwf.sync c' ch
  · have : (removeClient h c).clients = eraseL h₁.clients c := rfl
    rw [this, hclients]

end RemoveClient

section Broadcast

theorem deliverTo_room {h : HubState} {c : Nat} (m : Message)
    (hroom : (getConn h c).send.length < sendCap) :
    deliverTo m h c =
      setConn h c { getConn h c with send := (getConn h c).send ++ [m] } := by
  unfold deliverTo
  rw [if_pos hroom]

theorem deliverTo_full {h : HubState} {c : Nat} (m : Message)
    (hfull : ¬ (getConn h c).send.length < sendCap) :
    deliverTo m h c = removeClient h c := by
  unfold deliverTo
  rw [if_neg hfull]

theorem wf_deliverTo {h : HubState} (hwf : WF h) (m : Message) (c : Nat) :
    WF (deliverTo m h c) := by
  by_cases hroom : (getConn h c).send.length < sendCap
  · rw [deliverTo_room m hroom]
    constructor
    · exact hwf.chanKeys
    · exact keys_storeA_nodup _ _ hwf.connKeys
    · exact fun ch ms hlk => hwf.memNodup ch ms hlk
    · exact fun ch ms hlk => hwf.memNonempty ch ms hlk
    · intro c'
      by_cases hc : c' = c
      · subst hc
        rw [getConn_setConn_self]
        exact hwf.subNodup c'
      · rw [getConn_setConn_ne _ _ hc]
        exact hwf.subNodup c'
    · intro c' ch
      rw [membersOf_setConn]
      by_cases hc : c' = c
      · subst hc
        rw [getConn_setConn_self]
        exact hwf.sync c' ch
      · rw [getConn_setConn_ne _ _ hc]
        exact hwf.sync c' ch
  · rw [deliverTo_full m hroom]
    exact (removeClient_spec hwf c).1

theorem deliverTo_getConn_ne {h : HubState} (hwf : WF h) (m : Message)
    {c c' : Nat} (hne : c' ≠ c) :
    getConn (deliverTo m h c) c' = getConn h c' := by
  by_cases hroom : (getConn h c).send.length < sendCap
  · rw [deliverTo_room m hroom, getConn_setConn_ne _ _ hne]
  · rw [deliverTo_full m hroom]
    exact (removeClient_spec hwf c).2.2.1 c' hne

theorem deliverTo_not_mem {h : HubState} (hwf : WF h) (m : Message) (c : Nat)
    {c' : Nat} {ch : String} (hnm : c' ∉ membersOf h ch) :
    c' ∉ membersOf (deliverTo m h c) ch := by
  by_cases hroom : (getConn h c).send.length < sendCap
  · rw [deliverTo_room m hroom, membersOf_setConn]
    exact hnm
  · rw [deliverTo_full m hroom, (removeClient_spec hwf c).2.2.2.1 ch]
    intro hmem
    exact hnm (mem_eraseL.mp hmem).1

theorem deliver_foldl_frame (m : Message) (l : List Nat) :
    ∀ {h : HubState}, WF h →
      WF (l.foldl (deliverTo m) h)
      ∧ (∀ c, c ∉ l → getConn (l.foldl (deliverTo m) h) c = getConn h c)
      ∧ (∀ ch c, c ∉ membersOf h ch → c ∉ membersOf (l.foldl (deliverTo m) h) ch) := by
  induction l with
  | nil =>
      intro h hwf
      exact ⟨hwf, fun c _ => rfl, fun ch c hnm => hnm⟩
  | cons c₀ l ih =>
      intro h hwf
      have hwf₁ := wf_deliverTo hwf m c₀
      have hrec := ih hwf₁
      refine ⟨hrec.1, ?_, ?_⟩
      · intro c hc
        rw [List.mem_cons] at hc
        push_neg at hc
        show getConn (l.foldl (deliverTo m) (deliverTo m h c₀)) c = getConn h c
        rw [hrec.2.1 c hc.2, deliverTo_getConn_ne hwf m hc.1]
      · intro ch c hnm
        exact hrec.2.2 ch c (deliverTo_not_mem hwf m c₀ hnm)

theorem deliver_foldl_mem (m : Message) (l : List Nat) :
    ∀ {h : HubState}, WF h → l.Nodup → ∀ {c : Nat}, c ∈ l →
      (((getConn h c).send.length < sendCap →
          getConn (l.foldl (deliverTo m) h) c =
            { getConn h c with send := (getConn h c).send ++ [m] })
        ∧ (¬ (getConn h c).send.length < sendCap →
            getConn (l.foldl (deliverTo m) h) c =
              { getConn h c with channels := [], closed := (getConn h c).closed + 1 }
            ∧ ∀ ch, c ∉ membersOf (l.foldl (deliverTo m) h) ch)) := by
  induction l with
  | nil =>
      intro h _ _ c hc
      simp at hc
  | cons c₀ l ih =>
      intro h hwf hnodup c hc
      have hwf₁ := wf_deliverTo hwf m c₀
      rw [List.nodup_cons] at hnodup
      have hchain : (c₀ :: l).foldl (deliverTo m) h =
          l.foldl (deliverTo m) (deliverTo m h c₀) := rfl
      rcases List.mem_cons.mp hc with hcc | hcl
      · subst hcc
        have hcnot : c ∉ l := hnodup.1
        constructor
        · intro hroom
          have hstep : getConn (deliverTo m h c) c =
              { getConn h c with send := (getConn h c).send ++ [m] } := by
            rw [deliverTo_room m hroom, getConn_setConn_self]
          rw [hchain, (deliver_foldl_frame m l hwf₁).2.1 c hcnot, hstep]
        · intro hfull
          have hspec := removeClient_spec hwf c
          have hstep : deliverTo m h c = removeClient h c := deliverTo_full m hfull
          constructor
          · rw [hchain, (deliver_foldl_frame m l hwf₁).2.1 c hcnot, hstep, hspec.2.1]
          · intro ch
            have hnm : c ∉ membersOf (deliverTo m h c) ch := by
              rw [hstep, hspec.2.2.2.1 ch]
              exact not_mem_eraseL _ _
            rw [hchain]
            exact (deliver_foldl_frame m l hwf₁).2.2 ch c hnm
      · have hne : c ≠ c₀ := fun hh => hnodup.1 (hh ▸ hcl)
        have hg : getConn (deliverTo m h c₀) c = getConn h c :=
          deliverTo_getConn_ne hwf m hne
        have hrec := ih hwf₁ hnodup.2 hcl
        rw [hchain]
        constructor
        · intro hroom
          rw [hrec.1 (by rw [hg]; exact hroom), hg]
        · intro hfull
          obtain ⟨ha, hb⟩ := hrec.2 (by rw [hg]; exact hfull)
          exact ⟨by rw [ha, hg], hb⟩

theorem wf_broadcastMessage {h : HubState} (hwf : WF h) (m : Message) :
    WF (broadcastMessage h m) := by
  unfold broadcastMessage
  cases lookupA h.channels m.channel with
  | none => exact hwf
  | some members => exact (deliver_foldl_frame m members hwf).1

theorem broadcast_of_some {h : HubState} {m : Message} {members : List Nat}
    (hlk : lookupA h.channels m.channel = some members) :
    broadcastMessage h m = members.foldl (deliverTo m) h := by
  unfold broadcastMessage
  rw [hlk]

theorem wf_hubStep {h : HubState} (hwf : WF h) (e : HubEvent) :
    WF (hubStep h e) := by
  cases e with
  | register c ch => exact wf_addSubscription hwf c ch
  | unregister c ch => exact wf_removeSubscription hwf c ch
  | broadcast m => exact wf_broadcastMessage hwf m
  | removeClient c => exact (removeClient_spec hwf c).1

theorem wf_hubInit : WF hubInit := by
  constructor
  · exact List.nodup_nil
  · exact List.nodup_nil
  · intro ch ms hlk
    exact Option.noConfusion hlk
  · intro ch ms hlk
    exact Option.noConfusion hlk
  · intro c
    exact List.nodup_nil
  · intro c ch
    show c ∈ ([] : List Nat) ↔ ch ∈ ([] : List String)
    simp

theorem wf_foldl_hubStep (es : List HubEvent) :
    ∀ {h : HubState}, WF h → WF (es.foldl hubStep h) := by
  induction es with
  | nil => exact fun hwf => hwf
  | cons e es ih =>
      intro h hwf
      exact ih (wf_hubStep hwf e)

theorem wf_hubRun (es : List HubEvent) : WF (hubRun es) :=
  wf_foldl_hubStep es wf_hubInit

end Broadcast

section ClaimTheorems

theorem hubState_ext {a b : HubState} (h1 : a.clients = b.clients)
    (h2 : a.conns = b.conns) (h3 : a.channels = b.channels) : a = b := by
  cases a
  cases b
  simp_all

theorem lookup_channels_of_mem {h : HubState} (hwf : WF h) {c : Nat} {ch : String}
    (hmem : ch ∈ (getConn h c).channels) :
    lookupA h.channels ch = some (membersOf h ch) := by
  have hc : c ∈ membersOf h ch := (wf_mem_iff hwf).mpr hmem
  cases hlk : lookupA h.channels ch with
  | none =>
      unfold membersOf at hc
      rw [hlk] at hc
      simp at hc
  | some ms =>
      unfold membersOf
      rw [hlk]
      rfl

theorem lookup_conns_of_mem {h : HubState} {c : Nat} {ch : String}
    (hmem : ch ∈ (getConn h c).channels) :
    lookupA h.conns c = some (getConn h c) := by
  cases hlk : lookupA h.conns c with
  | none =>
      have : getConn h c = defaultConn := by
        unfold getConn
        rw [hlk]
        rfl
      rw [this] at hmem
      simp [defaultConn] at hmem
  | some cc =>
      unfold getConn
      rw [hlk]
      rfl

theorem removeSub_channels_of_some {h : HubState} {c : Nat} {ch : String}
    {members : List Nat} (hlk : lookupA h.channels ch = some members) :
    (removeSubscription h c ch).channels =
      if (eraseL members c).isEmpty then eraseA h.channels ch
      else storeA h.channels ch (eraseL members c) := by
  unfold removeSubscription
  rw [hlk]
  by_cases he : (eraseL members c).isEmpty
  · simp [he, setConn]
  · simp [he, setConn]

/-- Claim C1: for every broadcast of a message to a channel, every connection
currently in that channel's member set whose outbound queue is not full
receives the message exactly once — exactly one enqueue onto its send
queue — and every connection not in that channel's member set receives
nothing. -/
theorem broadcast_exact_delivery (h : HubState) (hwf : WF h) (m : Message) (c : Nat) :
    (c ∈ membersOf h m.channel → (getConn h c).send.length < sendCap →
        (getConn (broadcastMessage h m) c).send = (getConn h c).send ++ [m])
    ∧ (c ∉ membersOf h m.channel →
        (getConn (broadcastMessage h m) c).send = (getConn h c).send) := by
  cases hlk : lookupA h.channels m.channel with
  | none =>
      have hb : broadcastMessage h m = h := by
        unfold broadcastMessage
        rw [hlk]
      rw [hb]
      constructor
      · intro hmem _
        unfold membersOf at hmem
        rw [hlk] at hmem
        simp at hmem
      · intro _
        rfl
  | some members =>
      have hb := broadcast_of_some hlk
      have hmembers : membersOf h m.channel = members := by
        unfold membersOf
        rw [hlk]
        rfl
      constructor
      · intro hmem hroom
        rw [hmembers] at hmem
        have hnodup := hwf.memNodup _ _ hlk
        rw [hb, (deliver_foldl_mem m members hwf hnodup hmem).1 hroom]
      · intro hnm
        rw [hmembers] at hnm
        rw [hb, (deliver_foldl_frame m members hwf).2.1 c hnm]

/-- Witness for C1 at a concrete reachable hub: connections 0 and 1 are
subscribed to "a"; broadcasting to "a" enqueues exactly one copy onto
connection 0's queue, and connection 2 (not subscribed) receives nothing. -/
theorem broadcast_exact_delivery_witness :
    (0 ∈ membersOf hubAB msgA.channel
      ∧ (getConn hubAB 0).send.length < sendCap
      ∧ (getConn (broadcastMessage hubAB msgA) 0).send = (getConn hubAB 0).send ++ [msgA])
    ∧ ((2 : Nat) ∉ membersOf hubAB msgA.channel
      ∧ (getConn (broadcastMessage hubAB msgA) 2).send = (getConn hubAB 2).send) :=
  ⟨⟨by decide, by decide,
      (broadcast_exact_delivery hubAB (wf_hubRun _) msgA 0).1 (by decide) (by decide)⟩,
    ⟨by decide,
      (broadcast_exact_delivery hubAB (wf_hubRun _) msgA 2).2 (by decide)⟩⟩

/-- Claim C3: after every sequence of hub operations (register, unregister,
broadcast, remove-connection), a channel entry exists in the registry iff at
least one connection lists that channel in its own subscribed set, and every
existing entry has a non-empty member set — an entry emptied by an operation
is deleted by that same operation. -/
theorem registry_entry_iff_subscriber (es : List HubEvent) (ch : String) :
    (lookupA (hubRun es).channels ch ≠ none ↔
      ∃ c, ch ∈ (getConn (hubRun es) c).channels)
    ∧ (∀ ms, lookupA (hubRun es).channels ch = some ms → ms ≠ []) := by
  have hwf := wf_hubRun es
  constructor
  · constructor
    · intro hne
      cases hlk : lookupA (hubRun es).channels ch with
      | none => exact absurd hlk hne
      | some ms =>
          have hnonempty := hwf.memNonempty ch ms hlk
          cases ms with
          | nil => exact absurd rfl hnonempty
          | cons c rest =>
              refine ⟨c, ?_⟩
              rw [← wf_mem_iff hwf]
              unfold membersOf
              rw [hlk]
              simp
    · rintro ⟨c, hc⟩
      have hmem := (wf_mem_iff hwf).mpr hc
      intro hnone
      unfold membersOf at hmem
      rw [hnone] at hmem
      simp at hmem
  · exact fun ms hlk => hwf.memNonempty ch ms hlk

/-- Claim C2: during a broadcast, a subscriber whose outbound queue (capacity
256) is full is force-removed entirely — its own channel set is emptied, it
is unregistered from every channel's member set, and its outbound queue is
closed — while every other subscriber of the same channel whose queue has
room (the removal clause governs any other saturated subscriber) still
receives the message and keeps its subscriptions. -/
theorem broadcast_full_queue_removal (h : HubState) (hwf : WF h) (m : Message)
    (c : Nat) (hmem : c ∈ membersOf h m.channel)
    (hfull : ¬ (getConn h c).send.length < sendCap) :
    ((getConn (broadcastMessage h m) c).channels = []
      ∧ (∀ ch, c ∉ membersOf (broadcastMessage h m) ch)
      ∧ (getConn (broadcastMessage h m) c).closed = (getConn h c).closed + 1)
    ∧ (∀ c', c' ≠ c → c' ∈ membersOf h m.channel →
        (getConn h c').send.length < sendCap →
          (getConn (broadcastMessage h m) c').send = (getConn h c').send ++ [m]
          ∧ (getConn (broadcastMessage h m) c').channels = (getConn h c').channels) := by
  cases hlk : lookupA h.channels m.channel with
  | none =>
      exfalso
      unfold membersOf at hmem
      rw [hlk] at hmem
      simp at hmem
  | some members =>
      have hb := broadcast_of_some hlk
      have hmembers : membersOf h m.channel = members := by
        unfold membersOf
        rw [hlk]
        rfl
      have hnodup := hwf.memNodup _ _ hlk
      rw [hmembers] at hmem
      obtain ⟨hconn, hnm⟩ := (deliver_foldl_mem m members hwf hnodup hmem).2 hfull
      refine ⟨⟨?_, ?_, ?_⟩, ?_⟩
      · rw [hb, hconn]
      · intro ch
        rw [hb]
        exact hnm ch
      · rw [hb, hconn]
      · intro c' hc' hmem' hroom
        rw [hmembers] at hmem'
        have hrec' := (deliver_foldl_mem m members hwf hnodup hmem').1 hroom
        exact ⟨by rw [hb, hrec'], by rw [hb, hrec']⟩

set_option maxRecDepth 40000

/-- Witness for C2 at a concrete reachable hub: connection 0 is subscribed to
"a" and "b" with a full queue (256 undrained broadcasts to "b"); broadcasting
to "a" removes connection 0 entirely and closes its queue once, while
connection 1 receives the message and keeps its subscription. -/
theorem broadcast_full_queue_removal_witness :
    ((0 : Nat) ∈ membersOf hubSaturated msgA.channel
      ∧ ¬ (getConn hubSaturated 0).send.length < sendCap)
    ∧ (getConn (broadcastMessage hubSaturated msgA) 0).channels = []
    ∧ (getConn (broadcastMessage hubSaturated msgA) 0).closed =
        (getConn hubSaturated 0).closed + 1
    ∧ (getConn (broadcastMessage hubSaturated msgA) 1).send =
        (getConn hubSaturated 1).send ++ [msgA]
    ∧ (getConn (broadcastMessage hubSaturated msgA) 1).channels =
        (getConn hubSaturated 1).channels :=
  ⟨⟨by decide, by decide⟩,
    ((broadcast_full_queue_removal hubSaturated (wf_hubRun _) msgA 0
        (by decide) (by decide)).1).1,
    ((broadcast_full_queue_removal hubSaturated (wf_hubRun _) msgA 0
        (by decide) (by decide)).1).2.2,
    ((broadcast_full_queue_removal hubSaturated (wf_hubRun _) msgA 0
        (by decide) (by decide)).2 1 (by decide) (by decide) (by decide)).1,
    ((broadcast_full_queue_removal hubSaturated (wf_hubRun _) msgA 0
        (by decide) (by decide)).2 1 (by decide) (by decide) (by decide)).2⟩

theorem netEffect_fold (acts : List SubAct) :
    ∀ {h : HubState} {c : Nat}, WF h →
      (getConn ((acts.map (subActEvent c)).foldl hubStep h) c).channels =
        netEffect (getConn h c).channels acts := by
  induction acts with
  | nil =>
      intro h c _
      rfl
  | cons a acts ih =>
      intro h c hwf
      have hwf₁ : WF (hubStep h (subActEvent c a)) := wf_hubStep hwf _
      have hchain : ((a :: acts).map (subActEvent c)).foldl hubStep h =
          (acts.map (subActEvent c)).foldl hubStep (hubStep h (subActEvent c a)) := rfl
      rw [hchain, ih hwf₁]
      cases a with
      | sub ch =>
          show netEffect (getConn (addSubscription h c ch) c).channels acts = _
          rw [addSub_getConn_self]
          rfl
      | unsub ch =>
          show netEffect (getConn (removeSubscription h c ch) c).channels acts = _
          rw [removeSub_getConn_self hwf]
          rfl

/-- Claim C6: a connection's resulting channel membership equals the net
effect of its register/unregister sequence — registering an already
subscribed channel changes nothing at all, unregistering a channel the
connection is not subscribed to changes nothing observable, and folding any
subscribe/unsubscribe sequence yields the pure insert/erase net effect on
the connection's channel set. -/
theorem membership_net_effect (h : HubState) (hwf : WF h) (c : Nat) :
    (∀ ch, ch ∈ (getConn h c).channels → hubStep h (.register c ch) = h)
    ∧ (∀ ch, ch ∉ (getConn h c).channels →
        HubState.Equiv (hubStep h (.unregister c ch)) h)
    ∧ (∀ acts : List SubAct,
        (getConn ((acts.map (subActEvent c)).foldl hubStep h) c).channels =
          netEffect (getConn h c).channels acts) := by
  refine ⟨?_, ?_, fun acts => netEffect_fold acts hwf⟩
  · intro ch hmem
    have hlkch := lookup_channels_of_mem hwf hmem
    have hlkcn := lookup_conns_of_mem hmem
    have hcm : c ∈ membersOf h ch := (wf_mem_iff hwf).mpr hmem
    show addSubscription h c ch = h
    apply hubState_ext
    · rfl
    · show storeA h.conns c
          { getConn h c with channels := insertL (getConn h c).channels ch } = h.conns
      rw [insertL_eq_of_mem hmem]
      exact storeA_eq_of_lookupA hlkcn
    · show storeA h.channels ch (insertL (membersOf h ch) c) = h.channels
      rw [insertL_eq_of_mem hcm]
      exact storeA_eq_of_lookupA hlkch
  · intro ch hnm
    show HubState.Equiv (removeSubscription h c ch) h
    cases hlk : lookupA h.channels ch with
    | none =>
        have heq : removeSubscription h c ch = h := by
          unfold removeSubscription
          rw [hlk]
        rw [heq]
        exact ⟨rfl, rfl, fun _ => rfl⟩
    | some members =>
        have hcm : c ∉ members := by
          intro hcmem
          apply hnm
          rw [← wf_mem_iff hwf]
          unfold membersOf
          rw [hlk]
          exact hcmem
        have hne : members ≠ [] := hwf.memNonempty _ _ hlk
        have herase : eraseL members c = members := eraseL_eq_of_not_mem hcm
        have hemp : ¬ ((eraseL members c).isEmpty = true) := by
          rw [herase]
          intro hh
          exact hne (List.isEmpty_iff.mp hh)
        refine ⟨?_, removeSub_clients h c ch, ?_⟩
        · rw [removeSub_channels_of_some hlk, if_neg hemp, herase]
          exact storeA_eq_of_lookupA hlk
        · intro c''
          by_cases hcc : c'' = c
          · subst hcc
            rw [removeSub_getConn_self hwf, eraseL_eq_of_not_mem hnm]
          · rw [removeSub_getConn_ne _ _ hcc]

/-- Witness for C6 at a concrete reachable hub: re-registering a subscribed
channel is the identity, unregistering an unknown channel is observationally
the identity, and a subscribe-then-unsubscribe sequence folds to its net
effect on connection 0's channel set. -/
theorem membership_net_effect_witness :
    WF hubAB
    ∧ hubStep hubAB (.register 0 "a") = hubAB
    ∧ HubState.Equiv (hubStep hubAB (.unregister 0 "z")) hubAB
    ∧ (getConn (([SubAct.sub "c", SubAct.unsub "a"].map (subActEvent 0)).foldl
          hubStep hubAB) 0).channels =
        netEffect (getConn hubAB 0).channels [SubAct.sub "c", SubAct.unsub "a"] :=
  ⟨wf_hubRun _,
    (membership_net_effect hubAB (wf_hubRun _) 0).1 "a" (by decide),
    (membership_net_effect hubAB (wf_hubRun _) 0).2.1 "z" (by decide),
    (membership_net_effect hubAB (wf_hubRun _) 0).2.2 [SubAct.sub "c", SubAct.unsub "a"]⟩

/-- Claim C4 (code divergence): one RemoveClient call does unregister the
connection from its channel and close its queue once, but the code has no
guard against a second call — when forced removal during a broadcast and the
read-loop teardown both run, the queue's close count reaches 2, while the
claim requires it never be closed twice (in Go the second close panics). -/
theorem removeClient_double_close :
    (getConn (hubStep (hubRun [.register 0 "a"]) (.removeClient 0)) 0).closed = 1
    ∧ membersOf (hubStep (hubRun [.register 0 "a"]) (.removeClient 0)) "a" = []
    ∧ (getConn (hubStep (hubStep (hubRun [.register 0 "a"]) (.removeClient 0))
        (.removeClient 0)) 0).closed = 2 := by
  decide

/-- Claim C5 (code divergence): the trigger handler never enqueues onto the
hub's broadcast processing queue — `HandleTrigger` invokes `Trigger`, which
runs `broadcastMessage` synchronously in the handler's own task: on a
well-formed POST the handler returns success with the broadcast queue still
empty, having written the message directly into subscriber 0's outbound
queue and thereby mutated hub state outside the Run loop. -/
theorem handleTrigger_bypasses_queue :
    (∀ (s : ServerState) (r : TriggerRequest),
        (handleTrigger s r).2.broadcastQueue = s.broadcastQueue)
    ∧ (handleTrigger ⟨hubRun [.register 0 "a"], []⟩ ⟨true, some msgA, false⟩).1 =
        TriggerStatus.ok
    ∧ (handleTrigger ⟨hubRun [.register 0 "a"], []⟩
        ⟨true, some msgA, false⟩).2.broadcastQueue = []
    ∧ (getConn (handleTrigger ⟨hubRun [.register 0 "a"], []⟩
        ⟨true, some msgA, false⟩).2.hub 0).send = [msgA]
    ∧ (handleTrigger ⟨hubRun [.register 0 "a"], []⟩ ⟨true, some msgA, false⟩).2.hub ≠
        hubRun [.register 0 "a"] := by
  refine ⟨?_, by decide, by decide, by decide, by decide⟩
  intro s r
  unfold handleTrigger
  by_cases hp : r.isPost
  · simp only [hp, not_true_eq_false, if_false]
    cases r.body with
    | none => rfl
    | some m =>
        by_cases hd : r.ctxDone
        · simp [hd]
        · simp [hd]
  · simp [hp]

/-- Counterexample to claim C9: the read-liveness timeout constant
(`pongWait`) is 60 seconds, not 30, so the claimed 30-second timeout with a
27-second ping period does not match the code. -/
theorem timeout_constants_cx :
    ¬ (pongWait = 30 * second ∧ pingPeriod = 27 * second) := by
  decide

/-- Claim C9 (amended): the connection's read-liveness timeout is 60 seconds
and the outbound loop's ping-timer period is 90% of it, 54 seconds. -/
theorem timeout_constants :
    pongWait = 60 * second ∧ pingPeriod = 54 * second
      ∧ pingPeriod * 10 = pongWait * 9 := by
  decide

theorem send_open {s : SocketClient} (hopen : s.sockOpen = true) (d : SFrame) :
    s.send d = { s with sent := s.sent ++ [d] } := by
  unfold SocketClient.send
  rw [if_pos hopen]

theorem flushQueue_spec (q : List SFrame) :
    ∀ {s : SocketClient}, s.sockOpen = true →
      flushQueue q s = { s with sent := s.sent ++ q } := by
  induction q with
  | nil =>
      intro s _
      show s = { s with sent := s.sent ++ [] }
      simp
  | cons m q ih =>
      intro s hopen
      show flushQueue q (s.send m) = _
      rw [send_open hopen]
      have hstep := @ih { s with sent := s.sent ++ [m] } hopen
      rw [hstep]
      simp

theorem resub_foldl_spec (l : List (String × ChannelObj)) :
    ∀ {s : SocketClient}, s.sockOpen = true →
      l.foldl (fun st p => st.send ⟨"subscribe", p.1⟩) s =
        { s with sent := s.sent ++ l.map (fun p => ⟨"subscribe", p.1⟩) } := by
  induction l with
  | nil =>
      intro s _
      show s = { s with sent := s.sent ++ [] }
      simp
  | cons p l ih =>
      intro s hopen
      show l.foldl (fun st p => st.send ⟨"subscribe", p.1⟩)
        (s.send ⟨"subscribe", p.1⟩) = _
      rw [send_open hopen]
      have hstep := @ih { s with sent := s.sent ++ [⟨"subscribe", p.1⟩] } hopen
      rw [hstep]
      simp

/-- The open handler's net effect: attempts reset, subscribe frames for the
tracked channels first, then the drained queue, transmitted in that order. -/
theorem onOpen_spec (s : SocketClient) :
    onOpen s =
      { s with
          sockOpen := true
          reconnectAttempts := 0
          messageQueue := []
          sent := s.sent ++ s.channels.map (fun p => ⟨"subscribe", p.1⟩)
            ++ s.messageQueue } := by
  have h2 := @resub_foldl_spec s.channels
    { s with sockOpen := true, reconnectAttempts := 0 } rfl
  simp only [onOpen]
  rw [h2]
  simp [flushQueue_spec, List.append_assoc]

/-- Counterexample to claim C7: at a client state with one tracked channel
and one buffered frame, the open handler emits the resubscribe frame first
and the buffered frame after it — the outbound queue is not flushed before
the resubscriptions. -/
theorem onOpen_order_cx :
    (onOpen clientQueued).sent = [⟨"subscribe", "a"⟩, ⟨"message", "b"⟩]
    ∧ (onOpen clientQueued).sent ≠ [⟨"message", "b"⟩, ⟨"subscribe", "a"⟩] := by
  decide

/-- Claim C7 (amended): on every transition to Open the client first resends
a subscribe action for every locally tracked channel, in tracking order, and
only then flushes the outbound action queue in FIFO submission order. -/
theorem onOpen_resubscribe_then_flush (s : SocketClient) :
    (onOpen s).sent = s.sent ++ s.channels.map (fun p => ⟨"subscribe", p.1⟩)
      ++ s.messageQueue
    ∧ (onOpen s).messageQueue = [] := by
  rw [onOpen_spec]
  exact ⟨rfl, rfl⟩

/-- Counterexample to claim C8: while the socket is not open, unsubscribing
the tracked channel "a" appends nothing to the outbound action queue — the
action is dropped outright and the channel merely untracked — and subscribe
likewise queues nothing. -/
theorem offline_actions_not_queued_cx :
    (clientClosedA.unsubscribe "a").messageQueue = []
    ∧ (clientClosedA.unsubscribe "a").sent = []
    ∧ lookupA (clientClosedA.unsubscribe "a").channels "a" = none
    ∧ (clientClosedA.subscribe "z").1.messageQueue = []
    ∧ (clientClosedA.subscribe "z").1.sent = [] := by
  decide

/-- Claim C8 (amended): subscribe and unsubscribe issued while the socket is
not open append nothing to the outbound action queue and transmit nothing —
subscribe only records the channel locally (replayed by the resubscribe pass
of the next Open transition) and unsubscribe only drops the local channel;
the queue's contents are preserved in submission order and flushed in FIFO
order, after the resubscribe frames, on the next Open transition. -/
theorem offline_actions_behavior (s : SocketClient) (hclosed : s.sockOpen = false) :
    (∀ name, (s.subscribe name).1.messageQueue = s.messageQueue
      ∧ (s.subscribe name).1.sent = s.sent)
    ∧ (∀ name, (s.unsubscribe name).messageQueue = s.messageQueue
      ∧ (s.unsubscribe name).sent = s.sent)
    ∧ (onOpen s).sent = s.sent ++ s.channels.map (fun p => ⟨"subscribe", p.1⟩)
        ++ s.messageQueue := by
  refine ⟨?_, ?_, by rw [onOpen_spec]⟩
  · intro name
    unfold SocketClient.subscribe
    cases lookupA s.channels name with
    | some co => exact ⟨rfl, rfl⟩
    | none =>
        simp only [hclosed]
        exact ⟨rfl, rfl⟩
  · intro name
    by_cases hlk : (lookupA s.channels name).isSome
    · simp [SocketClient.unsubscribe, hlk, hclosed]
    · simp [SocketClient.unsubscribe, hlk]

/-- Witness for C8 (amended) at a concrete disconnected client tracking "a":
unsubscribing queues nothing and the open transition emits the resubscribe
frame for "a" with nothing else pending. -/
theorem offline_actions_behavior_witness :
    clientClosedA.sockOpen = false
    ∧ (clientClosedA.unsubscribe "a").messageQueue = clientClosedA.messageQueue
    ∧ (clientClosedA.subscribe "z").1.sent = clientClosedA.sent
    ∧ (onOpen clientClosedA).sent = clientClosedA.sent
        ++ clientClosedA.channels.map (fun p => ⟨"subscribe", p.1⟩)
        ++ clientClosedA.messageQueue :=
  ⟨by decide,
    ((offline_actions_behavior clientClosedA (by decide)).2.1 "a").1,
    ((offline_actions_behavior clientClosedA (by decide)).1 "z").2,
    (offline_actions_behavior clientClosedA (by decide)).2.2⟩

/-- Claim C10: `SocketClient.subscribe` is idempotent at the public
interface — when the channel is already locally tracked, subscribe returns
the stored Channel object with all previously bound callbacks intact,
leaves the entire client state unchanged, sends no subscribe frame and
queues nothing. -/
theorem subscribe_idempotent (s : SocketClient) (name : String) (co : ChannelObj)
    (htracked : lookupA s.channels name = some co) :
    s.subscribe name = (s, co) := by
  unfold SocketClient.subscribe
  rw [htracked]

/-- Witness for C10: a client already tracking "a" with callback 7 bound to
event "ev"; subscribing to "a" again returns the same state and the same
channel object, callbacks included. -/
theorem subscribe_idempotent_witness :
    lookupA clientBound.channels "a" = some ⟨"a", [("ev", [7])]⟩
    ∧ clientBound.subscribe "a" = (clientBound, ⟨"a", [("ev", [7])]⟩) :=
  ⟨by decide, subscribe_idempotent clientBound "a" ⟨"a", [("ev", [7])]⟩ (by decide)⟩

end ClaimTheorems

end PushPop
